import Mathlib

/-
Verification development for the VTableToIndexes pass
(src/passes/VTableToIndexes.cpp).

The pass rewrites a module's heap-type graph so that every struct field
whose type is a function reference becomes an i32 field, and then
substitutes the new types for the old ones throughout the module.

Shallow embedding conventions:
  * The module's collected heap types (ModuleUtils::collectHeapTypes
    followed by the typeToIndex map) are a list `defs : List HeapTypeDef`;
    a defined heap type is referred to by its index in that list, which is
    exactly the role `typeToIndex` / `typeBuilder.getTempHeapType(i)` play
    in the source: the temporary (new) heap type built for slot `i`
    replaces the old type at index `i`.
  * Fallible C++ control flow (WASM_UNREACHABLE("bad type"),
    std::unordered_map::at / TypeBuilder slot-bound assertions) is
    `Except String`.
  * `ValType.unrecognized` / `HeapTypeDef.unrecognizedHeap` stand for a
    type shape outside the recognized ones, so that the
    WASM_UNREACHABLE("bad type") branches are reachable in the model.
-/

namespace VTableToIndexes

/-- Sub-byte packing of a struct/array field (wasm::Field::PackedType). -/
inductive PackedKind where
  | notPacked : PackedKind
  | p8 : PackedKind
  | p16 : PackedKind
deriving DecidableEq, Repr

/-- The basic (non-compound) value types used by the pass (subset of
wasm::Type's basic types; `funcref` is the basic function-reference type,
for which Type::isFunction() is true). -/
inductive BasicType where
  | noneT : BasicType
  | i32 : BasicType
  | i64 : BasicType
  | f32 : BasicType
  | f64 : BasicType
  | v128 : BasicType
  | funcref : BasicType
deriving DecidableEq, Repr

/-- A wasm value type (wasm::Type): basic, a reference to a defined heap
type (by index, with nullability), an rtt (with depth and target heap
type), a tuple, or an unrecognized shape (the WASM_UNREACHABLE branch of
`getNewType`). -/
inductive ValType where
  | basic : BasicType → ValType
  | ref : Nat → Bool → ValType
  | rtt : Nat → Nat → ValType
  | tuple : List ValType → ValType
  | unrecognized : ValType

/-- A struct/array field (wasm::Field): type, mutability, packing. -/
structure Field where
  type : ValType
  mutable_ : Bool
  packedType : PackedKind

/-- A defined heap type (wasm::HeapType): a function signature, a struct,
an array, or an unrecognized shape (the WASM_UNREACHABLE branch of the
type-creation loop in `mapOldTypesToNew`). -/
inductive HeapTypeDef where
  | sig : List ValType → List ValType → HeapTypeDef
  | struct_ : List Field → HeapTypeDef
  | array : Field → HeapTypeDef
  | unrecognizedHeap : HeapTypeDef

/-- Whether the defined heap type at index `i` is a function signature
(HeapType::isSignature on the collected types). -/
def isSigAt (defs : List HeapTypeDef) (i : Nat) : Bool :=
  match defs.get? i with
  | some (.sig _ _) => true
  | _ => false

/-- Type::isFunction over a signature-classifying predicate on heap-type
indices: true for basic `funcref` and for references whose target heap
type is a signature. -/
def isFunctionWith (sigAt : Nat → Bool) : ValType → Bool
  | .basic .funcref => true
  | .ref i _ => sigAt i
  | _ => false

/-- Type::isFunction on an old (pre-rewrite) value type. -/
def ValType.isFunction (defs : List HeapTypeDef) (t : ValType) : Bool :=
  isFunctionWith (isSigAt defs) t

mutual

/-- `getNewType` from `mapOldTypesToNew`: maps an old value type to the
corresponding type over the temporary (new) heap types.  A basic type is
returned as is; a reference/rtt is rebuilt over the temporary heap type
at the same index (`typeToIndex.at` plus `getTempHeapType` demand the
index be among the collected types, hence the bound check), preserving
nullability resp. rtt depth; a tuple is rebuilt componentwise; any other
shape hits WASM_UNREACHABLE("bad type"). -/
def getNewType (defs : List HeapTypeDef) : ValType → Except String ValType
  | .basic b => .ok (.basic b)
  | .ref i n =>
    if i < defs.length then .ok (.ref i n) else .error "typeToIndex.at: out of range"
  | .rtt d i =>
    if i < defs.length then .ok (.rtt d i) else .error "typeToIndex.at: out of range"
  | .tuple ts =>
    match getNewTypeList defs ts with
    | .error e => .error e
    | .ok ts' => .ok (.tuple ts')
  | .unrecognized => .error "bad type"

/-- The componentwise rebuild of a tuple's types (the `for (auto& t :
newTuple.types) t = getNewType(t);` loop). -/
def getNewTypeList (defs : List HeapTypeDef) : List ValType → Except String (List ValType)
  | [] => .ok []
  | t :: ts =>
    match getNewType defs t with
    | .error e => .error e
    | .ok t' =>
      match getNewTypeList defs ts with
      | .error e => .error e
      | .ok ts' => .ok (t' :: ts')

end

/-- `getNewTypeForStruct`: the special mapping used for struct fields —
a function reference becomes `Type::i32`; anything else goes through
`getNewType`. -/
def getNewTypeForStruct (defs : List HeapTypeDef) (type : ValType) : Except String ValType :=
  if type.isFunction defs then .ok (.basic .i32) else getNewType defs type

/-- An abort-on-error map over a list (a C++ `for` loop whose body may
reach WASM_UNREACHABLE / throw). -/
def exceptMap {α β : Type} (f : α → Except String β) : List α → Except String (List β)
  | [] => .ok []
  | x :: xs =>
    match f x with
    | .error e => .error e
    | .ok y =>
      match exceptMap f xs with
      | .error e => .error e
      | .ok ys => .ok (y :: ys)

/-- Rebuild one struct field: copy the field (keeping mutability and
packing) and replace its type with `getNewTypeForStruct` of it. -/
def rebuildField (defs : List HeapTypeDef) (field : Field) : Except String Field :=
  match getNewTypeForStruct defs field.type with
  | .error e => .error e
  | .ok t => .ok { field with type := t }

/-- One iteration of the temporary-heap-type creation loop in
`mapOldTypesToNew`: a signature's params and results are rebuilt with
`getNewType`; a struct is copied (keeping mutability/packing) with every
field's type rebuilt by `getNewTypeForStruct`; an array is copied with
its element type rebuilt by `getNewType`; anything else hits
WASM_UNREACHABLE("bad type"). -/
def rebuildHeapType (defs : List HeapTypeDef) : HeapTypeDef → Except String HeapTypeDef
  | .sig params results =>
    match exceptMap (getNewType defs) params with
    | .error e => .error e
    | .ok newParams =>
      match exceptMap (getNewType defs) results with
      | .error e => .error e
      | .ok newResults => .ok (.sig newParams newResults)
  | .struct_ fields =>
    match exceptMap (rebuildField defs) fields with
    | .error e => .error e
    | .ok newFields => .ok (.struct_ newFields)
  | .array elem =>
    match getNewType defs elem.type with
    | .error e => .error e
    | .ok t => .ok (.array { elem with type := t })
  | .unrecognizedHeap => .error "bad type"

/-- The temporary-heap-type creation loop plus `typeBuilder.build()`:
the new heap types, in old-index order (slot `i` of the TypeBuilder holds
the new counterpart of old type `i`). -/
def buildNewTypes (defs : List HeapTypeDef) : Except String (List HeapTypeDef) :=
  exceptMap (rebuildHeapType defs) defs

/-- `mapOldTypesToNew`: build the new types and return the mapping of old
types to new (`oldToNewTypes[types[i]] = newTypes[i]`), as an association
list keyed by old type index. -/
def mapOldTypesToNew (defs : List HeapTypeDef) : Except String (List (Nat × HeapTypeDef)) :=
  match buildNewTypes defs with
  | .error e => .error e
  | .ok newTypes => .ok ((List.range defs.length).zip newTypes)

/-
The code-rewrite phase (`updateTypes` / the `CodeUpdater` walker).

Here `oldToNewTypes` appears as a function `m : Nat → Nat` on heap-type
indices: `CodeUpdater::update(HeapType)` returns a basic heap type
unchanged and otherwise (every defined heap type is a function or data
type) looks the type up in the map, which by the totality of
`mapOldTypesToNew` is defined on every collected type.  References in
expressions carry defined heap-type indices, so the lookup is `m`.
-/

namespace CodeUpdater

/-- `CodeUpdater::update(Type)`: a reference is rebuilt as a reference to
the updated heap type with the same nullability; an rtt is rebuilt with
the same depth over the updated heap type; any other type (basic, tuple,
or unrecognized) falls through the two `if`s and is returned unchanged. -/
def update (m : Nat → Nat) : ValType → ValType
  | .ref i n => .ref (m i) n
  | .rtt d i => .rtt d (m i)
  | t => t

end CodeUpdater

/-- The expression kinds the pass's rewrites touch (each node carries its
static result type, `Expression::type`): constants, `ref.func`,
`local.get`, `struct.new` (operands), and `struct.get` (reference child
and field index). -/
inductive Expr where
  | i32Const : Int → ValType → Expr
  | refFunc : String → ValType → Expr
  | localGet : Nat → ValType → Expr
  | structNew : List Expr → ValType → Expr
  | structGet : Expr → Nat → ValType → Expr

/-- The `Expression::type` field. -/
def Expr.getType : Expr → ValType
  | .i32Const _ t => t
  | .refFunc _ t => t
  | .localGet _ t => t
  | .structNew _ t => t
  | .structGet _ _ t => t

/-- Overwrite the `Expression::type` field. -/
def Expr.setType : Expr → ValType → Expr
  | .i32Const v _, t => .i32Const v t
  | .refFunc f _, t => .refFunc f t
  | .localGet i _, t => .localGet i t
  | .structNew ops _, t => .structNew ops t
  | .structGet r i _, t => .structGet r i t

/-- `CodeUpdater::visitExpression`: first `curr->type =
update(curr->type)`; then, if the node is a `StructGet` whose (updated)
type is a function reference, its type is overwritten with `Type::i32`.
`sigAt` classifies the heap-type indices of the updated world as
signatures (`Type::isFunction` on the updated type).  None of the
modelled expression kinds has further type/heap-type/signature fields,
so the delegated field updates are no-ops on them. -/
def visitExpression (m : Nat → Nat) (sigAt : Nat → Bool) (curr : Expr) : Expr :=
  match curr.setType (CodeUpdater.update m curr.getType) with
  | .structGet r i t =>
    if isFunctionWith sigAt t then .structGet r i (.basic .i32) else .structGet r i t
  | e => e

mutual

/-- The PostWalker traversal: children are walked first, then
`visitExpression` runs on the node. -/
def walkExpr (m : Nat → Nat) (sigAt : Nat → Bool) : Expr → Expr
  | .structNew ops t => visitExpression m sigAt (.structNew (walkExprList m sigAt ops) t)
  | .structGet r i t => visitExpression m sigAt (.structGet (walkExpr m sigAt r) i t)
  | e => visitExpression m sigAt e

/-- Walk each operand in order. -/
def walkExprList (m : Nat → Nat) (sigAt : Nat → Bool) : List Expr → List Expr
  | [] => []
  | e :: es => walkExpr m sigAt e :: walkExprList m sigAt es

end

/-- A function: its heap type (`Function::type`, updated through the
mapping like any defined heap type) and its body. -/
structure Func where
  type : Nat
  body : Expr

/-- The module state the pass touches: the collected heap types, the
functions, the declared types of tables, element segments and globals,
and the name map for heap types (`Module::typeNames`), an association
list looked up by first match (later writes shadow earlier entries). -/
structure Module where
  typeDefs : List HeapTypeDef
  funcs : List Func
  tables : List ValType
  elementSegments : List ValType
  globals : List ValType
  typeNames : List (Nat × String)

/-- The final loop of `updateTypes`: for every old heap type in the
mapping's key set (in order), if it has a name, give the corresponding
new heap type (`m old`) that name (`wasm.typeNames[new_] =
wasm.typeNames[old]`; assignment is modelled by a shadowing prepend). -/
def carryNames (m : Nat → Nat) (oldKeys : List Nat) (names : List (Nat × String)) :
    List (Nat × String) :=
  match oldKeys with
  | [] => names
  | old :: rest =>
    match names.lookup old with
    | some n => carryNames m rest ((m old, n) :: names)
    | none => carryNames m rest names

/-- `updateTypes` over an abstract mapping `m` (with `sigAt` classifying
the new heap types as signatures, and `oldKeys` the mapping's key set):
every function body is walked by the `CodeUpdater`; the declared types
of tables, element segments and globals, and every function's type, are
updated through the same mapping; the new types replace the old in the
module's type list; names are carried from old types to new. -/
def updateTypes (m : Nat → Nat) (sigAt : Nat → Bool) (oldKeys : List Nat)
    (newTypeDefs : List HeapTypeDef) (wasm : Module) : Module :=
  { typeDefs := newTypeDefs
    funcs := wasm.funcs.map (fun f => { type := m f.type, body := walkExpr m sigAt f.body })
    tables := wasm.tables.map (CodeUpdater.update m)
    elementSegments := wasm.elementSegments.map (CodeUpdater.update m)
    globals := wasm.globals.map (CodeUpdater.update m)
    typeNames := carryNames m oldKeys wasm.typeNames }

/-- `VTableToIndexes::run`: build the new types and the old-to-new
mapping, then update the whole module.  In the index embedding the new
type built in slot `i` replaces the old type of index `i`, so the
mapping is the identity on indices, and the signature classifier of the
updated world is `isSigAt` of the new types. -/
def run (wasm : Module) : Except String Module :=
  match buildNewTypes wasm.typeDefs with
  | .error e => .error e
  | .ok newTypes =>
    .ok (updateTypes (fun i => i) (isSigAt newTypes) (List.range wasm.typeDefs.length)
      newTypes wasm)

/-
Helper lemmas.
-/

theorem exceptMap_ok_length {α β : Type} (f : α → Except String β) :
    ∀ {l : List α} {l' : List β}, exceptMap f l = .ok l' → l'.length = l.length := by
  intro l
  induction l with
  | nil =>
    intro l' h
    simp only [exceptMap] at h
    cases h
    rfl
  | cons x xs ih =>
    intro l' h
    simp only [exceptMap] at h
    cases hfx : f x with
    | error e => rw [hfx] at h; cases h
    | ok y =>
      rw [hfx] at h
      cases hxs : exceptMap f xs with
      | error e => rw [hxs] at h; cases h
      | ok ys =>
        rw [hxs] at h
        cases h
        simp [ih hxs]

theorem exceptMap_ok_get {α β : Type} (f : α → Except String β) :
    ∀ {l : List α} {l' : List β}, exceptMap f l = .ok l' →
      ∀ {i : Nat} {x : α}, l.get? i = some x → ∃ y, l'.get? i = some y ∧ f x = .ok y := by
  intro l
  induction l with
  | nil =>
    intro l' _ i x hx
    cases i <;> cases hx
  | cons a xs ih =>
    intro l' h i x hx
    simp only [exceptMap] at h
    cases hfa : f a with
    | error e => rw [hfa] at h; cases h
    | ok y =>
      rw [hfa] at h
      cases hxs : exceptMap f xs with
      | error e => rw [hxs] at h; cases h
      | ok ys =>
        rw [hxs] at h
        cases h
        cases i with
        | zero =>
          cases hx
          exact ⟨y, rfl, hfa⟩
        | succ j => exact ih hxs hx

theorem exceptMap_error_of_mem {α β : Type} (f : α → Except String β) :
    ∀ {l : List α} {x : α} {e : String}, x ∈ l → f x = .error e →
      ∃ e', exceptMap f l = .error e' := by
  intro l
  induction l with
  | nil =>
    intro x e hx
    cases hx
  | cons a xs ih =>
    intro x e hx hfx
    simp only [exceptMap]
    cases List.mem_cons.mp hx with
    | inl hax =>
      subst hax
      rw [hfx]
      exact ⟨e, rfl⟩
    | inr hmem =>
      cases hfa : f a with
      | error e0 => exact ⟨e0, rfl⟩
      | ok y =>
        obtain ⟨e', he'⟩ := ih hmem hfx
        rw [he']
        exact ⟨e', rfl⟩

theorem mem_zip_of_get {α β : Type} :
    ∀ {l1 : List α} {l2 : List β} {i : Nat} {x : α} {y : β},
      l1.get? i = some x → l2.get? i = some y → (x, y) ∈ l1.zip l2 := by
  intro l1
  induction l1 with
  | nil =>
    intro l2 i x y hx
    cases i <;> cases hx
  | cons a xs ih =>
    intro l2 i x y hx hy
    cases l2 with
    | nil => cases i <;> cases hy
    | cons b ys =>
      cases i with
      | zero =>
        cases hx
        cases hy
        exact List.mem_cons_self _ _
      | succ j =>
        exact List.mem_cons_of_mem _ (ih hx hy)

theorem get_of_mem_zip {α β : Type} :
    ∀ {l1 : List α} {l2 : List β} {x : α} {y : β},
      (x, y) ∈ l1.zip l2 → ∃ i, l1.get? i = some x ∧ l2.get? i = some y := by
  intro l1
  induction l1 with
  | nil =>
    intro l2 x y h
    simp [List.zip] at h
  | cons a xs ih =>
    intro l2 x y h
    cases l2 with
    | nil => simp [List.zip] at h
    | cons b ys =>
      rcases List.mem_cons.mp h with h0 | hmem
      · refine ⟨0, ?_, ?_⟩ <;> simp_all
      · obtain ⟨i, hx, hy⟩ := ih hmem
        exact ⟨i + 1, hx, hy⟩

theorem range_get_eq {n i j : Nat} (h : (List.range n).get? j = some i) : j = i := by
  rcases Nat.lt_or_ge j n with hj | hj
  · rw [List.get?_range hj] at h
    cases h
    rfl
  · rw [List.get?_eq_none.mpr (by simpa using hj)] at h
    cases h

/-- Rebuilding a struct: position-for-position success of the field map. -/
theorem buildNewTypes_struct {defs newDefs : List HeapTypeDef} {i : Nat} {fields : List Field}
    (hbuild : buildNewTypes defs = .ok newDefs)
    (hstruct : defs.get? i = some (.struct_ fields)) :
    ∃ newFields, newDefs.get? i = some (.struct_ newFields) ∧
      exceptMap (rebuildField defs) fields = .ok newFields := by
  obtain ⟨d, hd, hre⟩ := exceptMap_ok_get _ hbuild hstruct
  simp only [rebuildHeapType] at hre
  cases hfs : exceptMap (rebuildField defs) fields with
  | error e => rw [hfs] at hre; cases hre
  | ok newFields =>
    rw [hfs] at hre
    cases hre
    exact ⟨newFields, hd, rfl⟩

/-- C1: for every Struct heap type in the module, the rebuilt Struct has
the same number of fields in the same order; a field whose old type is a
function reference gets new type i32; every other field's type is the
structural rebuild (`getNewType`) of the old type; and each new field
keeps the old field's mutability and packing. -/
theorem struct_shape_preserved (defs newDefs : List HeapTypeDef) (i : Nat)
    (fields : List Field)
    (hbuild : buildNewTypes defs = .ok newDefs)
    (hstruct : defs.get? i = some (.struct_ fields)) :
    ∃ newFields, newDefs.get? i = some (.struct_ newFields) ∧
      newFields.length = fields.length ∧
      ∀ j f f', fields.get? j = some f → newFields.get? j = some f' →
        f'.mutable_ = f.mutable_ ∧ f'.packedType = f.packedType ∧
        (f.type.isFunction defs = true → f'.type = .basic .i32) ∧
        (f.type.isFunction defs = false → getNewType defs f.type = .ok f'.type) := by
  obtain ⟨newFields, hd, hfs⟩ := buildNewTypes_struct hbuild hstruct
  refine ⟨newFields, hd, exceptMap_ok_length _ hfs, ?_⟩
  intro j f f' hf hf'
  obtain ⟨y, hy, hre⟩ := exceptMap_ok_get _ hfs hf
  rw [hf'] at hy
  cases hy
  simp only [rebuildField] at hre
  cases ht : getNewTypeForStruct defs f.type with
  | error e => rw [ht] at hre; cases hre
  | ok t =>
    rw [ht] at hre
    cases hre
    refine ⟨rfl, rfl, ?_, ?_⟩
    · intro hfun
      simp only [getNewTypeForStruct, hfun, if_pos] at ht
      cases ht
      rfl
    · intro hfun
      have heq : getNewTypeForStruct defs f.type = getNewType defs f.type := by
        simp [getNewTypeForStruct, hfun]
      rw [heq] at ht
      simp [ht]

/-- C1 witness: the spec's example, a struct with field types
[i32, (ref sig), f64], rebuilt to [i32, i32, f64] with mutability and
packing intact. -/
theorem struct_shape_preserved_witness :
    buildNewTypes
        [.sig [] [],
         .struct_ [⟨.basic .i32, false, .notPacked⟩, ⟨.ref 0 false, false, .notPacked⟩,
                   ⟨.basic .f64, false, .notPacked⟩]] =
      .ok [.sig [] [],
           .struct_ [⟨.basic .i32, false, .notPacked⟩, ⟨.basic .i32, false, .notPacked⟩,
                     ⟨.basic .f64, false, .notPacked⟩]] ∧
    (∃ newFields,
      ([HeapTypeDef.sig [] [],
        .struct_ [⟨.basic .i32, false, .notPacked⟩, ⟨.basic .i32, false, .notPacked⟩,
                  ⟨.basic .f64, false, .notPacked⟩]].get? 1 = some (.struct_ newFields)) ∧
      newFields.length =
        [(⟨.basic .i32, false, .notPacked⟩ : Field), ⟨.ref 0 false, false, .notPacked⟩,
         ⟨.basic .f64, false, .notPacked⟩].length ∧
      ∀ j f f',
        [(⟨.basic .i32, false, .notPacked⟩ : Field), ⟨.ref 0 false, false, .notPacked⟩,
         ⟨.basic .f64, false, .notPacked⟩].get? j = some f →
        newFields.get? j = some f' →
        f'.mutable_ = f.mutable_ ∧ f'.packedType = f.packedType ∧
        (f.type.isFunction
            [.sig [] [],
             .struct_ [⟨.basic .i32, false, .notPacked⟩, ⟨.ref 0 false, false, .notPacked⟩,
                       ⟨.basic .f64, false, .notPacked⟩]] = true →
          f'.type = .basic .i32) ∧
        (f.type.isFunction
            [.sig [] [],
             .struct_ [⟨.basic .i32, false, .notPacked⟩, ⟨.ref 0 false, false, .notPacked⟩,
                       ⟨.basic .f64, false, .notPacked⟩]] = false →
          getNewType
            [.sig [] [],
             .struct_ [⟨.basic .i32, false, .notPacked⟩, ⟨.ref 0 false, false, .notPacked⟩,
                       ⟨.basic .f64, false, .notPacked⟩]] f.type = .ok f'.type)) :=
  ⟨rfl, struct_shape_preserved _ _ 1 _ rfl rfl⟩

/-- C2 counterexample: an Array whose element type is a function
reference (a non-nullable reference to the signature at index 0) is NOT
rebuilt with element type i32 — the rebuilt Array keeps a reference
element type. -/
theorem array_funcref_not_i32 :
    buildNewTypes [.sig [] [], .array ⟨.ref 0 false, true, .notPacked⟩] =
      .ok [.sig [] [], .array ⟨.ref 0 false, true, .notPacked⟩] ∧
    ValType.isFunction [.sig [] [], .array ⟨.ref 0 false, true, .notPacked⟩]
      (.ref 0 false) = true ∧
    ValType.ref 0 false ≠ ValType.basic .i32 :=
  ⟨rfl, rfl, fun h => ValType.noConfusion h⟩

/-- C2 amended: an Array's element type is rebuilt structurally with
`getNewType` (keeping the element's mutability and packing); in
particular a function-reference element stays a reference to the
corresponding new signature heap type with the same nullability, and
only Struct fields receive the i32 rewrite. -/
theorem array_element_structural (defs newDefs : List HeapTypeDef) (i : Nat) (elem : Field)
    (hbuild : buildNewTypes defs = .ok newDefs)
    (harr : defs.get? i = some (.array elem)) :
    ∃ t, getNewType defs elem.type = .ok t ∧
      newDefs.get? i = some (.array { elem with type := t }) ∧
      ∀ k n, elem.type = .ref k n → t = .ref k n := by
  obtain ⟨d, hd, hre⟩ := exceptMap_ok_get _ hbuild harr
  simp only [rebuildHeapType] at hre
  cases ht : getNewType defs elem.type with
  | error e => rw [ht] at hre; cases hre
  | ok t =>
    rw [ht] at hre
    cases hre
    refine ⟨t, rfl, hd, ?_⟩
    intro k n hk
    rw [hk] at ht
    simp only [getNewType] at ht
    by_cases hlt : k < defs.length
    · rw [if_pos hlt] at ht
      cases ht
      rfl
    · rw [if_neg hlt] at ht
      cases ht

/-- C2 amended witness: the function-reference Array element from the
counterexample is rebuilt as the same reference type. -/
theorem array_element_structural_witness :
    buildNewTypes [.sig [] [], .array ⟨.ref 0 false, true, .notPacked⟩] =
      .ok [.sig [] [], .array ⟨.ref 0 false, true, .notPacked⟩] ∧
    (∃ t, getNewType [.sig [] [], .array ⟨.ref 0 false, true, .notPacked⟩]
        (Field.mk (.ref 0 false) true .notPacked).type = .ok t ∧
      ([HeapTypeDef.sig [] [], .array ⟨.ref 0 false, true, .notPacked⟩].get? 1 =
        some (.array { Field.mk (.ref 0 false) true .notPacked with type := t })) ∧
      ∀ k n, (Field.mk (.ref 0 false) true .notPacked).type = .ref k n → t = .ref k n) :=
  ⟨rfl, array_element_structural _ _ 1 _ rfl rfl⟩

/-- C3: when `mapOldTypesToNew` succeeds, the returned mapping assigns
exactly one new heap type to every collected old heap type (every index
below the number of collected types). -/
theorem mapping_total (defs : List HeapTypeDef) (pairs : List (Nat × HeapTypeDef)) (i : Nat)
    (hmap : mapOldTypesToNew defs = .ok pairs) (hi : i < defs.length) :
    ∃! d, (i, d) ∈ pairs := by
  simp only [mapOldTypesToNew] at hmap
  cases hbuild : buildNewTypes defs with
  | error e => rw [hbuild] at hmap; cases hmap
  | ok newTypes =>
    rw [hbuild] at hmap
    cases hmap
    have hlen : newTypes.length = defs.length := exceptMap_ok_length _ hbuild
    have hi' : i < newTypes.length := hlen ▸ hi
    refine ⟨newTypes.get ⟨i, hi'⟩, ?_, ?_⟩
    · exact mem_zip_of_get (List.get?_range hi) (List.get?_eq_get hi')
    · intro d' hd'
      obtain ⟨j, hj1, hj2⟩ := get_of_mem_zip hd'
      have hji : j = i := range_get_eq hj1
      subst hji
      rw [List.get?_eq_get hi'] at hj2
      cases hj2
      rfl

/-- C3 witness: a concrete two-type module; the mapping assigns exactly
one new type to old type 1. -/
theorem mapping_total_witness :
    mapOldTypesToNew [.sig [] [], .array ⟨.basic .i32, true, .notPacked⟩] =
      .ok [(0, .sig [] []), (1, .array ⟨.basic .i32, true, .notPacked⟩)] ∧
    1 < ([HeapTypeDef.sig [] [], .array ⟨.basic .i32, true, .notPacked⟩] : List HeapTypeDef).length ∧
    ∃! d, ((1 : Nat), d) ∈
      [((0 : Nat), HeapTypeDef.sig [] []), (1, .array ⟨.basic .i32, true, .notPacked⟩)] :=
  ⟨rfl, by decide,
    mapping_total [.sig [] [], .array ⟨.basic .i32, true, .notPacked⟩]
      [(0, .sig [] []), (1, .array ⟨.basic .i32, true, .notPacked⟩)] 1 rfl (by decide)⟩

/-- C8: an unrecognized value-type shape is a fatal "bad type" error in
`getNewType`; an unrecognized heap-type shape is a fatal "bad type"
error in the type-creation loop; and when the collected types contain an
unrecognized heap type, or a recognized heap type carrying an
unrecognized value type (here an array element), the whole rebuild
aborts with an error rather than skipping the offending type. -/
theorem bad_shape_fatal (defs : List HeapTypeDef) (mu : Bool) (pk : PackedKind)
    (hmem : HeapTypeDef.unrecognizedHeap ∈ defs ∨
      HeapTypeDef.array ⟨.unrecognized, mu, pk⟩ ∈ defs) :
    getNewType defs .unrecognized = .error "bad type" ∧
    rebuildHeapType defs .unrecognizedHeap = .error "bad type" ∧
    ∃ e, buildNewTypes defs = .error e := by
  refine ⟨rfl, rfl, ?_⟩
  cases hmem with
  | inl h => exact exceptMap_error_of_mem _ h rfl
  | inr h => exact exceptMap_error_of_mem _ h rfl

/-- C8 witness: a module whose collected types contain an unrecognized
heap type makes the rebuild abort. -/
theorem bad_shape_fatal_witness :
    (HeapTypeDef.unrecognizedHeap ∈ [HeapTypeDef.unrecognizedHeap] ∨
      HeapTypeDef.array ⟨.unrecognized, false, .notPacked⟩ ∈ [HeapTypeDef.unrecognizedHeap]) ∧
    (getNewType [HeapTypeDef.unrecognizedHeap] .unrecognized = .error "bad type" ∧
     rebuildHeapType [HeapTypeDef.unrecognizedHeap] .unrecognizedHeap = .error "bad type" ∧
     ∃ e, buildNewTypes [HeapTypeDef.unrecognizedHeap] = .error e) :=
  ⟨Or.inl (List.mem_singleton_self _),
   bad_shape_fatal [HeapTypeDef.unrecognizedHeap] false .notPacked
     (Or.inl (List.mem_singleton_self _))⟩

/-- C10: a Signature heap type's parameters and results are rebuilt with
`getNewType`, not with the struct-field rewrite: a parameter or result
that is a function reference (a reference to a signature) stays a
reference to the heap type of the same index in the new graph, with the
same nullability — it does not become i32. -/
theorem signature_params_keep_refs (defs newDefs : List HeapTypeDef) (i : Nat)
    (params results : List ValType)
    (hbuild : buildNewTypes defs = .ok newDefs)
    (hsig : defs.get? i = some (.sig params results)) :
    ∃ newParams newResults,
      newDefs.get? i = some (.sig newParams newResults) ∧
      exceptMap (getNewType defs) params = .ok newParams ∧
      exceptMap (getNewType defs) results = .ok newResults ∧
      (∀ j k n, params.get? j = some (.ref k n) → newParams.get? j = some (.ref k n)) ∧
      (∀ j k n, results.get? j = some (.ref k n) → newResults.get? j = some (.ref k n)) := by
  obtain ⟨d, hd, hre⟩ := exceptMap_ok_get _ hbuild hsig
  simp only [rebuildHeapType] at hre
  cases hps : exceptMap (getNewType defs) params with
  | error e => rw [hps] at hre; cases hre
  | ok newParams =>
    rw [hps] at hre
    cases hrs : exceptMap (getNewType defs) results with
    | error e => rw [hrs] at hre; cases hre
    | ok newResults =>
      rw [hrs] at hre
      cases hre
      have hkeep : ∀ (ts newTs : List ValType), exceptMap (getNewType defs) ts = .ok newTs →
          ∀ j k n, ts.get? j = some (.ref k n) → newTs.get? j = some (.ref k n) := by
        intro ts newTs hts j k n hj
        obtain ⟨y, hy, hre'⟩ := exceptMap_ok_get _ hts hj
        simp only [getNewType] at hre'
        by_cases hlt : k < defs.length
        · rw [if_pos hlt] at hre'
          cases hre'
          exact hy
        · rw [if_neg hlt] at hre'
          cases hre'
      exact ⟨newParams, newResults, hd, rfl, rfl,
        hkeep params newParams hps, hkeep results newResults hrs⟩

/-- C10 witness: a signature taking and returning a function reference
keeps both as references after the rebuild. -/
theorem signature_params_keep_refs_witness :
    buildNewTypes [.sig [] [], .sig [.ref 0 false] [.ref 0 true]] =
      .ok [.sig [] [], .sig [.ref 0 false] [.ref 0 true]] ∧
    (∃ newParams newResults,
      ([HeapTypeDef.sig [] [], .sig [.ref 0 false] [.ref 0 true]].get? 1 =
        some (.sig newParams newResults)) ∧
      exceptMap (getNewType [.sig [] [], .sig [.ref 0 false] [.ref 0 true]])
        [.ref 0 false] = .ok newParams ∧
      exceptMap (getNewType [.sig [] [], .sig [.ref 0 false] [.ref 0 true]])
        [.ref 0 true] = .ok newResults ∧
      (∀ j k n, [ValType.ref 0 false].get? j = some (.ref k n) →
        newParams.get? j = some (.ref k n)) ∧
      (∀ j k n, [ValType.ref 0 true].get? j = some (.ref k n) →
        newResults.get? j = some (.ref k n))) :=
  ⟨rfl, signature_params_keep_refs [.sig [] [], .sig [.ref 0 false] [.ref 0 true]]
    [.sig [] [], .sig [.ref 0 false] [.ref 0 true]] 1 [.ref 0 false] [.ref 0 true] rfl rfl⟩

/-- C4 counterexample: under a mapping that sends heap type 0 to heap
type 5, `CodeUpdater::update` leaves a tuple type containing a reference
to old heap type 0 completely unchanged — the old heap type survives
inside the tuple wrapper — although the same reference type is rewritten
when it is not wrapped in a tuple. -/
theorem tuple_wrapper_not_rewritten :
    CodeUpdater.update (fun _ => 5) (.tuple [.ref 0 true]) = .tuple [.ref 0 true] ∧
    CodeUpdater.update (fun _ => 5) (.ref 0 true) = .ref 5 true ∧
    ValType.tuple [.ref 0 true] ≠ ValType.tuple [.ref 5 true] :=
  ⟨rfl, rfl, by simp⟩

/-- C4 amended: `CodeUpdater::update(Type)` rewrites only the reference
and rtt wrappers — a reference becomes a reference to the mapped heap
type with the same nullability, an rtt keeps its depth over the mapped
heap type — while basic types and tuple types are returned unchanged
(tuple components are not rewritten). -/
theorem update_wrappers (m : Nat → Nat) (i d : Nat) (n : Bool) (ts : List ValType)
    (b : BasicType) :
    CodeUpdater.update m (.ref i n) = .ref (m i) n ∧
    CodeUpdater.update m (.rtt d i) = .rtt d (m i) ∧
    CodeUpdater.update m (.tuple ts) = .tuple ts ∧
    CodeUpdater.update m (.basic b) = .basic b :=
  ⟨rfl, rfl, rfl, rfl⟩

/-- C5: evaluating the code rewrite at a creation site that writes a
constant function reference into a function-reference field: old heap
type 0 is the field's signature and old heap type 1 the vtable struct,
and the mapping sends old index i to new index i + 10.  The walk only
substitutes the types; the `ref.func` operand is NOT replaced with an
i32 constant holding a dispatch-table index (no such table exists in the
pass). -/
theorem structnew_operand_not_indexed :
    walkExpr (fun i => i + 10) (fun i => i == 10)
      (.structNew [.refFunc "f" (.ref 0 false)] (.ref 1 false)) =
      .structNew [.refFunc "f" (.ref 10 false)] (.ref 11 false) :=
  rfl

/-- C6: evaluating the code rewrite at a field read whose static field
type is a function reference (old signature heap type 0, vtable struct
heap type 1, mapping i to i + 10 with new index 10 a signature): the
`struct.get`'s result type is overwritten with i32, but the expression
stays a bare `struct.get` — no index-load plus dispatch-table fetch is
synthesized around it. -/
theorem structget_only_retyped :
    walkExpr (fun i => i + 10) (fun i => i == 10)
      (.structGet (.localGet 0 (.ref 1 false)) 0 (.ref 0 false)) =
      .structGet (.localGet 0 (.ref 11 false)) 0 (.basic .i32) :=
  rfl

/-- Unfolding `run` when the type rebuild succeeds. -/
theorem run_eq (wasm : Module) (newTypes : List HeapTypeDef)
    (hbuild : buildNewTypes wasm.typeDefs = .ok newTypes) :
    run wasm = .ok (updateTypes (fun i => i) (isSigAt newTypes)
      (List.range wasm.typeDefs.length) newTypes wasm) := by
  unfold run
  rw [hbuild]

/-- C7 counterexample: a module whose only creation site writes a
NON-constant value (a `local.get`, not a `ref.func`) into the
function-reference field of the vtable struct.  The pass does not abort:
it returns successfully and has rewritten the struct's field type to
i32, so the module is not left unchanged. -/
theorem no_abort_on_nonconstant_write :
    run { typeDefs := [.sig [] [], .struct_ [⟨.ref 0 false, true, .notPacked⟩]]
          funcs := [⟨0, .structNew [.localGet 0 (.ref 0 false)] (.ref 1 false)⟩]
          tables := [], elementSegments := [], globals := [], typeNames := [] } =
      .ok { typeDefs := [.sig [] [], .struct_ [⟨.basic .i32, true, .notPacked⟩]]
            funcs := [⟨0, .structNew [.localGet 0 (.ref 0 false)] (.ref 1 false)⟩]
            tables := [], elementSegments := [], globals := [], typeNames := [] } ∧
    [HeapTypeDef.sig [] [], .struct_ [⟨.basic .i32, true, .notPacked⟩]] ≠
      [HeapTypeDef.sig [] [], .struct_ [⟨.ref 0 false, true, .notPacked⟩]] :=
  ⟨rfl, by simp⟩

/-- C7 amended: the pass performs no validation of creation-site
operands at all — whenever the type rebuild succeeds, the transformation
completes and commits the rewritten types, whatever the function bodies
(including non-constant writes into flagged fields) contain. -/
theorem no_validation_of_creation_sites (wasm : Module) (newTypes : List HeapTypeDef)
    (hbuild : buildNewTypes wasm.typeDefs = .ok newTypes) :
    ∃ out, run wasm = .ok out ∧ out.typeDefs = newTypes :=
  ⟨_, run_eq wasm newTypes hbuild, rfl⟩

/-- C7 amended witness: the transformation completes on the module with
the non-constant write. -/
theorem no_validation_witness :
    buildNewTypes [.sig [] [], .struct_ [⟨.ref 0 false, true, .notPacked⟩]] =
      .ok [.sig [] [], .struct_ [⟨.basic .i32, true, .notPacked⟩]] ∧
    ∃ out,
      run { typeDefs := [.sig [] [], .struct_ [⟨.ref 0 false, true, .notPacked⟩]]
            funcs := [⟨0, .structNew [.localGet 0 (.ref 0 false)] (.ref 1 false)⟩]
            tables := [], elementSegments := [], globals := [], typeNames := [] } = .ok out ∧
      out.typeDefs = [.sig [] [], .struct_ [⟨.basic .i32, true, .notPacked⟩]] :=
  ⟨rfl, no_validation_of_creation_sites _ _ rfl⟩

/-- Lookups at a key that is none of the written (new) keys are
unchanged by the name-carrying loop. -/
theorem carryNames_lookup_preserved (m : Nat → Nat) :
    ∀ (oldKeys : List Nat) (names : List (Nat × String)) (k : Nat),
      k ∉ oldKeys.map m → (carryNames m oldKeys names).lookup k = names.lookup k := by
  intro oldKeys
  induction oldKeys with
  | nil => intro names k _; rfl
  | cons a rest ih =>
    intro names k hk
    have hka : k ≠ m a := by
      intro h
      exact hk (by simp [h])
    have hkrest : k ∉ rest.map m := fun h => hk (by simp [h])
    simp only [carryNames]
    cases hla : names.lookup a with
    | none => exact ih names k hkrest
    | some n =>
      rw [ih _ k hkrest]
      have hb : (k == m a) = false := beq_eq_false_iff_ne.mpr hka
      simp [List.lookup, hb]

/-- The name-carrying loop gives `m old` the name of `old`, provided the
new keys written by the loop avoid all old keys and the mapping is
injective on the key set. -/
theorem carryNames_lookup_found (m : Nat → Nat) :
    ∀ (oldKeys : List Nat) (names : List (Nat × String)) (old : Nat) (n : String),
      old ∈ oldKeys → names.lookup old = some n →
      (∀ a ∈ oldKeys, ∀ b ∈ oldKeys, m a ≠ b) →
      (oldKeys.map m).Nodup →
      (carryNames m oldKeys names).lookup (m old) = some n := by
  intro oldKeys
  induction oldKeys with
  | nil =>
    intro _ _ _ h
    cases h
  | cons a rest ih =>
    intro names old n hold hln hfresh hnd
    simp only [List.map_cons, List.nodup_cons] at hnd
    obtain ⟨hma, hndrest⟩ := hnd
    rcases List.mem_cons.mp hold with h1 | h2
    · subst h1
      simp only [carryNames, hln]
      rw [carryNames_lookup_preserved m rest _ (m old) hma]
      simp [List.lookup]
    · simp only [carryNames]
      have hfresh' : ∀ x ∈ rest, ∀ y ∈ rest, m x ≠ y := fun x hx y hy =>
        hfresh x (List.mem_cons_of_mem _ hx) y (List.mem_cons_of_mem _ hy)
      cases hla : names.lookup a with
      | none => exact ih names old n h2 hln hfresh' hndrest
      | some n' =>
        have hne : old ≠ m a := by
          intro he
          exact hfresh a (List.mem_cons_self _ _) old (List.mem_cons_of_mem _ h2) he.symm
        have hlold : (((m a, n') :: names).lookup old) = some n := by
          have hb : (old == m a) = false := beq_eq_false_iff_ne.mpr hne
          simp [List.lookup, hb, hln]
        exact ih _ old n h2 hlold hfresh' hndrest

/-- C9: `updateTypes` updates the declared types of every table, element
segment and global, and every function's type, through the same mapping,
and — provided the new heap types are fresh (distinct from the old keys)
and the mapping is injective on the key set — every old heap type with a
name passes that name on to its new heap type. -/
theorem module_level_updates (m : Nat → Nat) (sigAt : Nat → Bool) (oldKeys : List Nat)
    (newTypeDefs : List HeapTypeDef) (wasm : Module)
    (hfresh : ∀ a ∈ oldKeys, ∀ b ∈ oldKeys, m a ≠ b)
    (hinj : (oldKeys.map m).Nodup) :
    (updateTypes m sigAt oldKeys newTypeDefs wasm).tables =
      wasm.tables.map (CodeUpdater.update m) ∧
    (updateTypes m sigAt oldKeys newTypeDefs wasm).elementSegments =
      wasm.elementSegments.map (CodeUpdater.update m) ∧
    (updateTypes m sigAt oldKeys newTypeDefs wasm).globals =
      wasm.globals.map (CodeUpdater.update m) ∧
    (updateTypes m sigAt oldKeys newTypeDefs wasm).funcs.map Func.type =
      wasm.funcs.map (fun f => m f.type) ∧
    ∀ old n, old ∈ oldKeys → wasm.typeNames.lookup old = some n →
      (updateTypes m sigAt oldKeys newTypeDefs wasm).typeNames.lookup (m old) = some n := by
  refine ⟨rfl, rfl, rfl, by simp [updateTypes], ?_⟩
  intro old n hold hln
  exact carryNames_lookup_found m oldKeys wasm.typeNames old n hold hln hfresh hinj

/-- C9 witness: two old types 0 and 1 mapped to fresh new types 2 and 3;
old type 0 is named "A" and new type 2 receives that name; the declared
type lists are mapped through the update. -/
theorem module_level_updates_witness :
    (∀ a ∈ ([0, 1] : List Nat), ∀ b ∈ ([0, 1] : List Nat), a + 2 ≠ b) ∧
    (([0, 1] : List Nat).map (fun i => i + 2)).Nodup ∧
    ((updateTypes (fun i => i + 2) (fun _ => false) [0, 1] []
        { typeDefs := [], funcs := [], tables := [.ref 0 false], elementSegments := [],
          globals := [], typeNames := [(0, "A")] }).tables =
      (Module.mk [] [] [.ref 0 false] [] [] [(0, "A")]).tables.map
        (CodeUpdater.update (fun i => i + 2)) ∧
    (updateTypes (fun i => i + 2) (fun _ => false) [0, 1] []
        (Module.mk [] [] [.ref 0 false] [] [] [(0, "A")])).elementSegments =
      (Module.mk [] [] [.ref 0 false] [] [] [(0, "A")]).elementSegments.map
        (CodeUpdater.update (fun i => i + 2)) ∧
    (updateTypes (fun i => i + 2) (fun _ => false) [0, 1] []
        (Module.mk [] [] [.ref 0 false] [] [] [(0, "A")])).globals =
      (Module.mk [] [] [.ref 0 false] [] [] [(0, "A")]).globals.map
        (CodeUpdater.update (fun i => i + 2)) ∧
    (updateTypes (fun i => i + 2) (fun _ => false) [0, 1] []
        (Module.mk [] [] [.ref 0 false] [] [] [(0, "A")])).funcs.map Func.type =
      (Module.mk [] [] [.ref 0 false] [] [] [(0, "A")]).funcs.map (fun f => (f.type + 2)) ∧
    ∀ old n, old ∈ ([0, 1] : List Nat) →
      (Module.mk [] [] [.ref 0 false] [] [] [(0, "A")]).typeNames.lookup old = some n →
      (updateTypes (fun i => i + 2) (fun _ => false) [0, 1] []
          (Module.mk [] [] [.ref 0 false] [] [] [(0, "A")])).typeNames.lookup (old + 2) =
        some n) :=
  ⟨by decide, by decide,
    module_level_updates (fun i => i + 2) (fun _ => false) [0, 1] []
      (Module.mk [] [] [.ref 0 false] [] [] [(0, "A")]) (by decide) (by decide)⟩

end VTableToIndexes
